import Mathlib

/-!
Verification of `Kinetics::compute_mass_sources` from
`src/kinetics/include/antioch/kinetics.h` (Antioch gas-dynamics
thermochemistry library), shallowly embedded over exact rationals
(the working `NumericType`).

The collaborators `Reaction`, `ChemicalMixture` and `ReactionSet` are not
part of the visible source; they are modelled from the specification's
collaborator contracts.
-/

namespace Antioch

/-- Modelled from the spec: a reaction is an immutable record of an ordered
list of reactant references and an ordered list of product references, each
pairing a species index with a stoichiometric coefficient
(`reaction(index) -> {reactants: ordered list of (species_id, stoich),
products: ordered list of (species_id, stoich)}`). -/
structure Reaction where
  reactants : List (Nat × Nat)
  products : List (Nat × Nat)
deriving DecidableEq, Repr, Inhabited

/-- Modelled from the spec: the mixture accessor exposes
`molar_mass(species_id) -> positive scalar` and `n_species() -> integer`;
species form an ordered fixed-size collection identified by a dense index,
so the mixture is the list of molar masses indexed by species id. -/
structure ChemicalMixture where
  molarMasses : List ℚ
deriving DecidableEq, Repr

/-- `ChemicalMixture::n_species()`. -/
def ChemicalMixture.n_species (m : ChemicalMixture) : Nat :=
  m.molarMasses.length

/-- `ChemicalMixture::M(s)`: the molar mass of species `s`. -/
def ChemicalMixture.M (m : ChemicalMixture) (s : Nat) : ℚ :=
  m.molarMasses.getD s 0

/-- Modelled from the spec: the reaction set owns the chemical mixture
reference and the indexed reaction records, and supplies the opaque
reaction-rate aggregator
`compute_reaction_rates(T, rho, R_mix, mass_fractions, molar_densities,
h_RT_minus_s_R, out net_rates[n_reactions])`, which is deterministic,
fully populates the output buffer of length `n_reactions`, and does not
read the core's state.  The aggregator is the function field `rateFn`;
`rateFn_len` records that it fully populates a buffer of length
`n_reactions`. -/
structure ReactionSet where
  mixture : ChemicalMixture
  reactions : List Reaction
  rateFn : ℚ → ℚ → ℚ → List ℚ → List ℚ → List ℚ → List ℚ
  rateFn_len : ∀ T rho R_mix y c h,
    (rateFn T rho R_mix y c h).length = reactions.length

/-- `ReactionSet::n_reactions()`. -/
def ReactionSet.n_reactions (rs : ReactionSet) : Nat :=
  rs.reactions.length

/-- `ReactionSet::reaction(rxn)`. -/
def ReactionSet.reaction (rs : ReactionSet) (rxn : Nat) : Reaction :=
  rs.reactions.getD rxn default

/-- Well-formedness of a reaction set (spec data model: every reactant and
product reference pairs a species index `0..n_species-1` with its
coefficient). -/
def ReactionSet.wf (rs : ReactionSet) : Prop :=
  ∀ rxn ∈ rs.reactions,
    (∀ e ∈ rxn.reactants, e.1 < rs.mixture.n_species) ∧
    (∀ e ∈ rxn.products, e.1 < rs.mixture.n_species)

instance (rs : ReactionSet) : Decidable rs.wf := by
  unfold ReactionSet.wf
  infer_instance

/-- The `Kinetics` class: a borrowed reaction set (whose chemical mixture is
also bound at construction) plus the preallocated work array
`_net_reaction_rates`. -/
structure Kinetics where
  reaction_set : ReactionSet
  net_reaction_rates : List ℚ

/-- `Kinetics::Kinetics(reaction_set)`: binds the reaction set and the
mixture, and initializes `_net_reaction_rates(reaction_set.n_reactions(), 0.0)`. -/
def Kinetics.construct (rs : ReactionSet) : Kinetics :=
  ⟨rs, List.replicate rs.n_reactions 0⟩

/-- `Kinetics::n_species()`: delegates to the bound chemical mixture. -/
def Kinetics.n_species (k : Kinetics) : Nat :=
  k.reaction_set.mixture.n_species

/-- `Kinetics::n_reactions()`: delegates to the bound reaction set. -/
def Kinetics.n_reactions (k : Kinetics) : Nat :=
  k.reaction_set.n_reactions

/-- The reactant loop of `compute_mass_sources`:
`mass_sources[r_id] -= static_cast<NumericType>(r_stoich) * rate`
for each reactant entry, in stored order. -/
def applyReactants (rate : ℚ) (entries : List (Nat × Nat)) (ms : List ℚ) :
    List ℚ :=
  entries.foldl (fun m e => m.set e.1 (m.getD e.1 0 - (e.2 : ℚ) * rate)) ms

/-- The product loop of `compute_mass_sources`:
`mass_sources[p_id] += static_cast<NumericType>(p_stoich) * rate`
for each product entry, in stored order. -/
def applyProducts (rate : ℚ) (entries : List (Nat × Nat)) (ms : List ℚ) :
    List ℚ :=
  entries.foldl (fun m e => m.set e.1 (m.getD e.1 0 + (e.2 : ℚ) * rate)) ms

/-- One iteration of the outer reaction loop of `compute_mass_sources`:
reactant contributions then product contributions of one reaction. -/
def applyReaction (ms : List ℚ) (p : Reaction × ℚ) : List ℚ :=
  applyProducts p.2 p.1.products (applyReactants p.2 p.1.reactants ms)

/-- The outer loop `for (rxn = 0; rxn < n_reactions; rxn++)` of
`compute_mass_sources`, with `rate = _net_reaction_rates[rxn]` and
`reaction = _reaction_set.reaction(rxn)`; since the rate buffer has length
`n_reactions`, the loop walks the reactions paired with their rates. -/
def accumulateAll (reactions : List Reaction) (rates : List ℚ)
    (ms : List ℚ) : List ℚ :=
  (reactions.zip rates).foldl applyReaction ms

/-- The final scaling loop of `compute_mass_sources`:
`for (s = 0; s < n_species; s++) mass_sources[s] *= _chem_mixture.M(s)`. -/
def scaleByMolarMass (masses : List ℚ) (ms : List ℚ) : List ℚ :=
  (List.range masses.length).foldl
    (fun m s => m.set s (m.getD s 0 * masses.getD s 0)) ms

/-- The precondition asserted at the top of `compute_mass_sources`
(`antioch_assert_greater` / `antioch_assert_equal_to`, lines 137-144). -/
def Kinetics.pre (k : Kinetics) (T rho R_mix : ℚ)
    (mass_fractions molar_densities h_RT_minus_s_R mass_sources : List ℚ) :
    Prop :=
  0 < T ∧ 0 < rho ∧ 0 < R_mix ∧
  mass_fractions.length = k.n_species ∧
  molar_densities.length = k.n_species ∧
  h_RT_minus_s_R.length = k.n_species ∧
  mass_sources.length = k.n_species ∧
  k.net_reaction_rates.length = k.n_reactions

instance (k : Kinetics) (T rho R_mix : ℚ) (y c h ms : List ℚ) :
    Decidable (k.pre T rho R_mix y c h ms) := by
  unfold Kinetics.pre
  infer_instance

/-- `Kinetics::compute_mass_sources`: asserts the preconditions, zero-fills
`mass_sources`, delegates to `_reaction_set.compute_reaction_rates` to
overwrite `_net_reaction_rates`, accumulates the signed stoichiometric
contributions of every reaction, and scales by species molar mass.
Returns the updated object state paired with the overwritten
`mass_sources`, or `none` when an assertion fires. -/
def Kinetics.compute_mass_sources (k : Kinetics) (T rho R_mix : ℚ)
    (mass_fractions molar_densities h_RT_minus_s_R mass_sources : List ℚ) :
    Option (Kinetics × List ℚ) :=
  if k.pre T rho R_mix mass_fractions molar_densities h_RT_minus_s_R
      mass_sources then
    let ms0 := List.replicate mass_sources.length (0 : ℚ)
    let rates := k.reaction_set.rateFn T rho R_mix mass_fractions
      molar_densities h_RT_minus_s_R
    let ms1 := accumulateAll k.reaction_set.reactions rates ms0
    let ms2 := scaleByMolarMass k.reaction_set.mixture.molarMasses ms1
    some (⟨k.reaction_set, rates⟩, ms2)
  else
    none

/-- Total stoichiometric coefficient of species `s` in an entry list
(duplicate entries are independently additive). -/
def coeffSum (s : Nat) (entries : List (Nat × Nat)) : Nat :=
  (entries.filter (fun e => e.1 = s)).foldr (fun e a => e.2 + a) 0

/-- Net stoichiometric weight of species `s` in reaction `rxn`:
products minus reactants, in the working numeric type. -/
def netCoeff (s : Nat) (rxn : Reaction) : ℚ :=
  (coeffSum s rxn.products : ℚ) - (coeffSum s rxn.reactants : ℚ)

/-- Total mass carried by an entry list: the sum over entries of
stoichiometric coefficient times the molar mass of the referenced
species. -/
def entriesMass (masses : List ℚ) (entries : List (Nat × Nat)) : ℚ :=
  (entries.map (fun e => (e.2 : ℚ) * masses.getD e.1 0)).sum

lemma getD_set_self (l : List ℚ) (i : Nat) (a : ℚ) (h : i < l.length) :
    (l.set i a).getD i 0 = a := by
  rw [List.getD_eq_getElem?_getD _ _ _, List.getElem?_set_self (by simpa using h)]
  rfl

lemma getD_set_ne (l : List ℚ) {i j : Nat} (a : ℚ) (h : i ≠ j) :
    (l.set i a).getD j 0 = l.getD j 0 := by
  rw [List.getD_eq_getElem?_getD _ _ _, List.getElem?_set_ne h, ← List.getD_eq_getElem?_getD _ _ _]

lemma coeffSum_nil (s : Nat) : coeffSum s [] = 0 := rfl

lemma coeffSum_cons (s : Nat) (e : Nat × Nat) (es : List (Nat × Nat)) :
    coeffSum s (e :: es) = (if e.1 = s then e.2 else 0) + coeffSum s es := by
  by_cases h : e.1 = s <;>
    simp [coeffSum, List.filter_cons, h]

lemma applyReactants_length (rate : ℚ) (es : List (Nat × Nat)) (ms : List ℚ) :
    (applyReactants rate es ms).length = ms.length := by
  induction es generalizing ms with
  | nil => rfl
  | cons e es ih =>
    simp only [applyReactants, List.foldl_cons] at *
    rw [ih, List.length_set]

lemma applyProducts_length (rate : ℚ) (es : List (Nat × Nat)) (ms : List ℚ) :
    (applyProducts rate es ms).length = ms.length := by
  induction es generalizing ms with
  | nil => rfl
  | cons e es ih =>
    simp only [applyProducts, List.foldl_cons] at *
    rw [ih, List.length_set]

lemma applyReactants_getD (rate : ℚ) (es : List (Nat × Nat)) (ms : List ℚ)
    (s : Nat) (hs : s < ms.length) :
    (applyReactants rate es ms).getD s 0
      = ms.getD s 0 - (coeffSum s es : ℚ) * rate := by
  induction es generalizing ms with
  | nil => simp [applyReactants, coeffSum_nil]
  | cons e es ih =>
    simp only [applyReactants, List.foldl_cons] at *
    rw [ih _ (by rw [List.length_set]; exact hs), coeffSum_cons]
    by_cases h : e.1 = s
    · subst h
      rw [getD_set_self _ _ _ hs, if_pos rfl]
      push_cast
      ring
    · rw [getD_set_ne _ _ h]
      simp only [h, if_false]
      push_cast
      ring

lemma applyProducts_getD (rate : ℚ) (es : List (Nat × Nat)) (ms : List ℚ)
    (s : Nat) (hs : s < ms.length) :
    (applyProducts rate es ms).getD s 0
      = ms.getD s 0 + (coeffSum s es : ℚ) * rate := by
  induction es generalizing ms with
  | nil => simp [applyProducts, coeffSum_nil]
  | cons e es ih =>
    simp only [applyProducts, List.foldl_cons] at *
    rw [ih _ (by rw [List.length_set]; exact hs), coeffSum_cons]
    by_cases h : e.1 = s
    · subst h
      rw [getD_set_self _ _ _ hs, if_pos rfl]
      push_cast
      ring
    · rw [getD_set_ne _ _ h]
      simp only [h, if_false]
      push_cast
      ring

lemma applyReaction_length (ms : List ℚ) (p : Reaction × ℚ) :
    (applyReaction ms p).length = ms.length := by
  unfold applyReaction
  rw [applyProducts_length, applyReactants_length]

lemma applyReaction_getD (ms : List ℚ) (p : Reaction × ℚ) (s : Nat)
    (hs : s < ms.length) :
    (applyReaction ms p).getD s 0 = ms.getD s 0 + p.2 * netCoeff s p.1 := by
  unfold applyReaction
  rw [applyProducts_getD _ _ _ _ (by rw [applyReactants_length]; exact hs),
    applyReactants_getD _ _ _ _ hs, netCoeff]
  ring

lemma foldl_applyReaction_length (ps : List (Reaction × ℚ)) (ms : List ℚ) :
    (ps.foldl applyReaction ms).length = ms.length := by
  induction ps generalizing ms with
  | nil => rfl
  | cons p ps ih =>
    rw [List.foldl_cons, ih, applyReaction_length]

lemma foldl_applyReaction_getD (ps : List (Reaction × ℚ)) (ms : List ℚ)
    (s : Nat) (hs : s < ms.length) :
    (ps.foldl applyReaction ms).getD s 0
      = ms.getD s 0 + (ps.map (fun p => p.2 * netCoeff s p.1)).sum := by
  induction ps generalizing ms with
  | nil => simp
  | cons p ps ih =>
    rw [List.foldl_cons, ih _ (by rw [applyReaction_length]; exact hs),
      applyReaction_getD _ _ _ hs, List.map_cons, List.sum_cons]
    ring

lemma accumulateAll_length (reactions : List Reaction) (rates : List ℚ)
    (ms : List ℚ) :
    (accumulateAll reactions rates ms).length = ms.length :=
  foldl_applyReaction_length _ _

lemma zip_map_sum (reactions : List Reaction) (rates : List ℚ)
    (hlen : rates.length = reactions.length) (s : Nat) :
    ((reactions.zip rates).map (fun p => p.2 * netCoeff s p.1)).sum
      = ∑ r ∈ Finset.range reactions.length,
          rates.getD r 0 * netCoeff s (reactions.getD r default) := by
  induction reactions generalizing rates with
  | nil => simp
  | cons a as ih =>
    cases rates with
    | nil => simp at hlen
    | cons b bs =>
      simp only [List.length_cons] at hlen ⊢
      rw [Finset.sum_range_succ' _ as.length]
      simp only [List.getD_cons_succ, List.getD_cons_zero, List.zip_cons_cons,
        List.map_cons, List.sum_cons]
      rw [ih bs (by omega)]
      ring

lemma accumulateAll_getD (reactions : List Reaction) (rates : List ℚ)
    (ms : List ℚ) (hlen : rates.length = reactions.length) (s : Nat)
    (hs : s < ms.length) :
    (accumulateAll reactions rates ms).getD s 0
      = ms.getD s 0 + ∑ r ∈ Finset.range reactions.length,
          rates.getD r 0 * netCoeff s (reactions.getD r default) := by
  rw [accumulateAll, foldl_applyReaction_getD _ _ _ hs, zip_map_sum _ _ hlen]

lemma scale_foldl_length (masses : List ℚ) (n : Nat) (ms : List ℚ) :
    ((List.range n).foldl
      (fun m s => m.set s (m.getD s 0 * masses.getD s 0)) ms).length
      = ms.length := by
  induction n generalizing ms with
  | zero => rfl
  | succ n ih =>
    rw [List.range_succ, List.foldl_append, List.foldl_cons, List.foldl_nil,
      List.length_set, ih]

lemma scale_foldl_getD (masses : List ℚ) (n : Nat) (ms : List ℚ) (s : Nat)
    (hs : s < ms.length) :
    ((List.range n).foldl
      (fun m s => m.set s (m.getD s 0 * masses.getD s 0)) ms).getD s 0
      = if s < n then ms.getD s 0 * masses.getD s 0 else ms.getD s 0 := by
  induction n with
  | zero => simp
  | succ n ih =>
    rw [List.range_succ, List.foldl_append, List.foldl_cons, List.foldl_nil]
    by_cases h : s = n
    · subst h
      rw [getD_set_self _ _ _ (by rw [scale_foldl_length]; exact hs), ih]
      simp [lt_irrefl]
    · rw [getD_set_ne _ _ (fun hh => h hh.symm), ih]
      by_cases h2 : s < n
      · simp [h2, Nat.lt_succ_of_lt h2]
      · have : ¬ s < n + 1 := by omega
        simp [h2, this]

lemma scaleByMolarMass_length (masses : List ℚ) (ms : List ℚ) :
    (scaleByMolarMass masses ms).length = ms.length :=
  scale_foldl_length _ _ _

lemma scaleByMolarMass_getD (masses : List ℚ) (ms : List ℚ) (s : Nat)
    (hs : s < ms.length) (hn : s < masses.length) :
    (scaleByMolarMass masses ms).getD s 0
      = ms.getD s 0 * masses.getD s 0 := by
  rw [scaleByMolarMass, scale_foldl_getD _ _ _ _ hs, if_pos hn]

lemma getD_replicate_zero (n s : Nat) :
    (List.replicate n (0 : ℚ)).getD s 0 = 0 := by
  rw [List.getD_eq_getElem?_getD _ _ _]
  rcases lt_or_le s n with h | h
  · rw [List.getElem?_eq_getElem (by simpa using h)]
    simp [List.getElem_replicate]
  · rw [List.getElem?_eq_none (by simpa using h)]
    rfl

/-- The specification's closed form of the output: for every species `s`,
`mass_sources[s] = molar_mass(s) * sum over reactions r of
rate[r] * (product coefficients of s in r - reactant coefficients of s in r)`. -/
def massSourcesSpec (rs : ReactionSet) (rates : List ℚ) : List ℚ :=
  (List.range rs.mixture.n_species).map (fun s =>
    rs.mixture.M s *
      ∑ r ∈ Finset.range rs.n_reactions,
        rates.getD r 0 * netCoeff s (rs.reaction r))

lemma massSourcesSpec_length (rs : ReactionSet) (rates : List ℚ) :
    (massSourcesSpec rs rates).length = rs.mixture.n_species := by
  rw [massSourcesSpec, List.length_map, List.length_range]

lemma compute_mass_sources_eq_some (k : Kinetics) (T rho R_mix : ℚ)
    (y c hrt ms : List ℚ) (hpre : k.pre T rho R_mix y c hrt ms) :
    k.compute_mass_sources T rho R_mix y c hrt ms
      = some (⟨k.reaction_set, k.reaction_set.rateFn T rho R_mix y c hrt⟩,
          scaleByMolarMass k.reaction_set.mixture.molarMasses
            (accumulateAll k.reaction_set.reactions
              (k.reaction_set.rateFn T rho R_mix y c hrt)
              (List.replicate ms.length 0))) := by
  rw [Kinetics.compute_mass_sources, if_pos hpre]

lemma compute_mass_sources_eq_none (k : Kinetics) (T rho R_mix : ℚ)
    (y c hrt ms : List ℚ) (hpre : ¬ k.pre T rho R_mix y c hrt ms) :
    k.compute_mass_sources T rho R_mix y c hrt ms = none := by
  rw [Kinetics.compute_mass_sources, if_neg hpre]

lemma scaled_accum_eq_spec (k : Kinetics) (rates : List ℚ) (n : Nat)
    (hn : n = k.n_species)
    (hlen : rates.length = k.reaction_set.reactions.length) :
    scaleByMolarMass k.reaction_set.mixture.molarMasses
      (accumulateAll k.reaction_set.reactions rates (List.replicate n 0))
      = massSourcesSpec k.reaction_set rates := by
  apply List.ext_getElem
  · rw [scaleByMolarMass_length, accumulateAll_length, List.length_replicate,
      massSourcesSpec_length, hn]
    rfl
  · intro i h1 h2
    have hi : i < n := by
      rw [scaleByMolarMass_length, accumulateAll_length,
        List.length_replicate] at h1
      exact h1
    have hrep : i < (List.replicate n (0 : ℚ)).length := by
      rw [List.length_replicate]; exact hi
    have hacc : i < (accumulateAll k.reaction_set.reactions rates
        (List.replicate n 0)).length := by
      rw [accumulateAll_length, List.length_replicate]; exact hi
    have hmass : i < k.reaction_set.mixture.molarMasses.length := by
      have h3 : i < k.n_species := hn ▸ hi
      exact h3
    rw [← List.getD_eq_getElem _ 0 h1,
      scaleByMolarMass_getD _ _ _ hacc hmass,
      accumulateAll_getD _ _ _ hlen _ hrep, getD_replicate_zero, zero_add]
    simp only [massSourcesSpec]
    rw [List.getElem_map, List.getElem_range]
    rw [ChemicalMixture.M, ReactionSet.n_reactions]
    simp only [ReactionSet.reaction]
    ring

/-- Inversion of a successful call: the preconditions held, the new object
state carries the rates the aggregator wrote, and the output is the
specification's closed form evaluated at those rates. -/
lemma compute_some_inv (k : Kinetics) (T rho R_mix : ℚ)
    (y c hrt ms : List ℚ) (k' : Kinetics) (out : List ℚ)
    (hcall : k.compute_mass_sources T rho R_mix y c hrt ms
      = some (k', out)) :
    k.pre T rho R_mix y c hrt ms ∧
    k' = ⟨k.reaction_set, k.reaction_set.rateFn T rho R_mix y c hrt⟩ ∧
    out = massSourcesSpec k.reaction_set
      (k.reaction_set.rateFn T rho R_mix y c hrt) := by
  by_cases hpre : k.pre T rho R_mix y c hrt ms
  · rw [compute_mass_sources_eq_some _ _ _ _ _ _ _ _ hpre] at hcall
    have hms : ms.length = k.n_species := hpre.2.2.2.2.2.2.1
    rw [scaled_accum_eq_spec _ _ _ hms
      (k.reaction_set.rateFn_len _ _ _ _ _ _)] at hcall
    obtain ⟨h1, h2⟩ := Prod.mk.injEq .. ▸ Option.some.inj hcall
    exact ⟨hpre, h1.symm, h2.symm⟩
  · rw [compute_mass_sources_eq_none _ _ _ _ _ _ _ _ hpre] at hcall
    cases hcall

lemma sum_eq_sum_range_getD (l : List ℚ) :
    l.sum = ∑ s ∈ Finset.range l.length, l.getD s 0 := by
  induction l with
  | nil => simp
  | cons a t ih =>
    rw [List.sum_cons, List.length_cons, Finset.sum_range_succ' _ t.length]
    simp only [List.getD_cons_succ, List.getD_cons_zero]
    rw [← ih]
    ring

lemma sum_M_coeffSum (masses : List ℚ) (entries : List (Nat × Nat))
    (hid : ∀ e ∈ entries, e.1 < masses.length) :
    ∑ s ∈ Finset.range masses.length,
        masses.getD s 0 * (coeffSum s entries : ℚ)
      = entriesMass masses entries := by
  induction entries with
  | nil => simp [entriesMass, coeffSum_nil]
  | cons e es ih =>
    have he : e.1 < masses.length := hid e (List.mem_cons_self _ _)
    have hes : ∀ x ∈ es, x.1 < masses.length :=
      fun x hx => hid x (List.mem_cons_of_mem _ hx)
    simp only [coeffSum_cons, Nat.cast_add, Nat.cast_ite, Nat.cast_zero,
      mul_add, Finset.sum_add_distrib, ih hes]
    have hfirst : ∑ s ∈ Finset.range masses.length,
        masses.getD s 0 * (if e.1 = s then (e.2 : ℚ) else 0)
        = masses.getD e.1 0 * (e.2 : ℚ) := by
      have := Finset.sum_ite_eq (Finset.range masses.length) e.1
        (fun s => masses.getD s 0 * (e.2 : ℚ))
      simp only [Finset.mem_range, he, if_true] at this
      rw [← this]
      apply Finset.sum_congr rfl
      intro s _
      by_cases hh : e.1 = s <;> simp [hh]
    rw [hfirst]
    simp only [entriesMass, List.map_cons, List.sum_cons]
    ring

/-- The concrete 2-species, 1-reaction system of the spec: species A with
molar mass 2 and B with molar mass 4, reaction A -> B with coefficients
1 and 1, and an aggregator returning the net rate 3. -/
def exAB : ReactionSet where
  mixture := ⟨[2, 4]⟩
  reactions := [⟨[(0, 1)], [(1, 1)]⟩]
  rateFn := fun _ _ _ _ _ _ => [3]
  rateFn_len := fun _ _ _ _ _ _ => rfl

/-- The concrete self-pairing system of the spec: reaction 2A -> A + B with
molar masses A = 1, B = 1 and an aggregator returning the net rate 1. -/
def ex2A : ReactionSet where
  mixture := ⟨[1, 1]⟩
  reactions := [⟨[(0, 2)], [(0, 1), (1, 1)]⟩]
  rateFn := fun _ _ _ _ _ _ => [1]
  rateFn_len := fun _ _ _ _ _ _ => rfl

/-- C1: on every successful call, `mass_sources[s]` equals
`molar_mass(s)` times the sum over reactions of the net rate written by the
aggregator during this call times the difference between the product and
reactant stoichiometric coefficients of `s`; the prior contents of the
`mass_sources` buffer do not influence the result. -/
theorem mass_sources_closed_form (k : Kinetics) (T rho R_mix : ℚ)
    (y c hrt ms : List ℚ) (k' : Kinetics) (out : List ℚ)
    (hcall : k.compute_mass_sources T rho R_mix y c hrt ms
      = some (k', out)) :
    (∀ s, s < k.n_species →
      out.getD s 0 = k.reaction_set.mixture.M s *
        ∑ r ∈ Finset.range k.n_reactions,
          k'.net_reaction_rates.getD r 0 *
            ((coeffSum s (k.reaction_set.reaction r).products : ℚ)
              - (coeffSum s (k.reaction_set.reaction r).reactants : ℚ))) ∧
    (∀ ms2 k2 out2,
      k.compute_mass_sources T rho R_mix y c hrt ms2 = some (k2, out2) →
      out2 = out) := by
  obtain ⟨hpre, hk', hout⟩ := compute_some_inv _ _ _ _ _ _ _ _ _ _ hcall
  constructor
  · intro s hs
    have hlen : s < (massSourcesSpec k.reaction_set
        (k.reaction_set.rateFn T rho R_mix y c hrt)).length := by
      rw [massSourcesSpec_length]; exact hs
    rw [hout, List.getD_eq_getElem _ 0 hlen, hk']
    simp only [massSourcesSpec, List.getElem_map, List.getElem_range,
      netCoeff, Kinetics.n_reactions]
  · intro ms2 k2 out2 hcall2
    obtain ⟨_, _, hout2⟩ := compute_some_inv _ _ _ _ _ _ _ _ _ _ hcall2
    rw [hout2, hout]

/-- The rate vector of the concrete A -> B call at the sample state. -/
def exRatesAB : List ℚ := exAB.rateFn 1 1 1 [1, 0] [1, 1] [0, 0]

/-- The mass-source vector the concrete A -> B call produces. -/
def exOutAB : List ℚ :=
  scaleByMolarMass exAB.mixture.molarMasses
    (accumulateAll exAB.reactions exRatesAB (List.replicate 2 0))

theorem mass_sources_closed_form_witness :
    ((Kinetics.construct exAB).compute_mass_sources 1 1 1 [1, 0] [1, 1]
        [0, 0] [0, 0] = some (⟨exAB, exRatesAB⟩, exOutAB)) ∧
    0 < (Kinetics.construct exAB).n_species ∧
    exOutAB.getD 0 0
      = (Kinetics.construct exAB).reaction_set.mixture.M 0 *
        ∑ r ∈ Finset.range (Kinetics.construct exAB).n_reactions,
          (Kinetics.mk exAB exRatesAB).net_reaction_rates.getD r 0 *
            ((coeffSum 0
                (((Kinetics.construct exAB).reaction_set.reaction r).products)
                : ℚ)
              - (coeffSum 0
                  (((Kinetics.construct exAB).reaction_set.reaction
                    r).reactants) : ℚ)) := by
  have hcall : (Kinetics.construct exAB).compute_mass_sources 1 1 1 [1, 0]
      [1, 1] [0, 0] [0, 0] = some (⟨exAB, exRatesAB⟩, exOutAB) :=
    compute_mass_sources_eq_some _ _ _ _ _ _ _ _ (by decide)
  exact ⟨hcall, by decide,
    (mass_sources_closed_form (Kinetics.construct exAB) 1 1 1 [1, 0] [1, 1]
      [0, 0] [0, 0] ⟨exAB, exRatesAB⟩ exOutAB hcall).1 0 (by decide)⟩

/-- C2: in the 2-species system A (molar mass 2), B (molar mass 4) with the
single reaction A -> B at net rate 3, every call satisfying the
preconditions produces `mass_sources = [-6, 12]`. -/
theorem two_species_scenario (T rho R_mix : ℚ) (y c hrt ms : List ℚ)
    (hpre : (Kinetics.construct exAB).pre T rho R_mix y c hrt ms) :
    ((Kinetics.construct exAB).compute_mass_sources T rho R_mix y c hrt
        ms).map Prod.snd = some [-6, 12] := by
  rw [compute_mass_sources_eq_some _ _ _ _ _ _ _ _ hpre]
  have hms : ms.length = (Kinetics.construct exAB).n_species :=
    hpre.2.2.2.2.2.2.1
  rw [Option.map_some', hms,
    scaled_accum_eq_spec _ _ _ rfl
      ((Kinetics.construct exAB).reaction_set.rateFn_len T rho R_mix y c
        hrt)]
  norm_num [massSourcesSpec, exAB, Kinetics.construct, Kinetics.n_species,
    ChemicalMixture.M, ChemicalMixture.n_species, ReactionSet.n_reactions,
    ReactionSet.reaction, netCoeff, coeffSum, List.range_succ,
    Finset.sum_range_one]

theorem two_species_scenario_witness :
    (Kinetics.construct exAB).pre 1 1 1 [1, 0] [1, 1] [0, 0] [0, 0] ∧
    ((Kinetics.construct exAB).compute_mass_sources 1 1 1 [1, 0] [1, 1]
        [0, 0] [0, 0]).map Prod.snd = some [-6, 12] :=
  ⟨by decide,
    two_species_scenario 1 1 1 [1, 0] [1, 1] [0, 0] [0, 0] (by decide)⟩

/-- C3: for the reaction 2A -> A + B where A appears both as reactant
(coefficient 2) and as product (coefficient 1), at net rate 1 with molar
masses A = 1, B = 1, the contributions accumulate independently and
additively, giving mass sources -1 for A and 1 for B. -/
theorem self_pairing_scenario (T rho R_mix : ℚ) (y c hrt ms : List ℚ)
    (hpre : (Kinetics.construct ex2A).pre T rho R_mix y c hrt ms) :
    ((Kinetics.construct ex2A).compute_mass_sources T rho R_mix y c hrt
        ms).map Prod.snd = some [-1, 1] := by
  rw [compute_mass_sources_eq_some _ _ _ _ _ _ _ _ hpre]
  have hms : ms.length = (Kinetics.construct ex2A).n_species :=
    hpre.2.2.2.2.2.2.1
  rw [Option.map_some', hms,
    scaled_accum_eq_spec _ _ _ rfl
      ((Kinetics.construct ex2A).reaction_set.rateFn_len T rho R_mix y c
        hrt)]
  norm_num [massSourcesSpec, ex2A, Kinetics.construct, Kinetics.n_species,
    ChemicalMixture.M, ChemicalMixture.n_species, ReactionSet.n_reactions,
    ReactionSet.reaction, netCoeff, coeffSum, List.range_succ,
    Finset.sum_range_one]

theorem self_pairing_scenario_witness :
    (Kinetics.construct ex2A).pre 1 1 1 [1, 0] [1, 1] [0, 0] [0, 0] ∧
    ((Kinetics.construct ex2A).compute_mass_sources 1 1 1 [1, 0] [1, 1]
        [0, 0] [0, 0]).map Prod.snd = some [-1, 1] :=
  ⟨by decide,
    self_pairing_scenario 1 1 1 [1, 0] [1, 1] [0, 0] [0, 0] (by decide)⟩

/-- A mass-balanced concrete system: reaction A -> B with molar masses
A = 1 and B = 1 (total reactant mass equals total product mass) at net
rate 1. -/
def exBal : ReactionSet where
  mixture := ⟨[1, 1]⟩
  reactions := [⟨[(0, 1)], [(1, 1)]⟩]
  rateFn := fun _ _ _ _ _ _ => [1]
  rateFn_len := fun _ _ _ _ _ _ => rfl

/-- The rate vector of the concrete balanced call at the sample state. -/
def exRatesBal : List ℚ := exBal.rateFn 1 1 1 [1, 0] [1, 1] [0, 0]

/-- The mass-source vector the concrete balanced call produces. -/
def exOutBal : List ℚ :=
  scaleByMolarMass exBal.mixture.molarMasses
    (accumulateAll exBal.reactions exRatesBal (List.replicate 2 0))

/-- C4: if every reaction conserves mass (the total reactant mass equals
the total product mass), the mass sources of a successful call sum to zero
exactly. -/
theorem mass_conservation (k : Kinetics) (T rho R_mix : ℚ)
    (y c hrt ms : List ℚ) (k' : Kinetics) (out : List ℚ)
    (hwf : k.reaction_set.wf)
    (hbal : ∀ rxn ∈ k.reaction_set.reactions,
      entriesMass k.reaction_set.mixture.molarMasses rxn.reactants
        = entriesMass k.reaction_set.mixture.molarMasses rxn.products)
    (hcall : k.compute_mass_sources T rho R_mix y c hrt ms
      = some (k', out)) :
    out.sum = 0 := by
  obtain ⟨hpre, hk', hout⟩ := compute_some_inv _ _ _ _ _ _ _ _ _ _ hcall
  rw [hout, sum_eq_sum_range_getD, massSourcesSpec_length]
  have hpt : ∀ s ∈ Finset.range k.reaction_set.mixture.n_species,
      (massSourcesSpec k.reaction_set
          (k.reaction_set.rateFn T rho R_mix y c hrt)).getD s 0
        = ∑ r ∈ Finset.range k.reaction_set.n_reactions,
            (k.reaction_set.rateFn T rho R_mix y c hrt).getD r 0 *
              (k.reaction_set.mixture.molarMasses.getD s 0 *
                netCoeff s (k.reaction_set.reaction r)) := by
    intro s hs
    rw [Finset.mem_range] at hs
    have hlen : s < (massSourcesSpec k.reaction_set
        (k.reaction_set.rateFn T rho R_mix y c hrt)).length := by
      rw [massSourcesSpec_length]; exact hs
    rw [List.getD_eq_getElem _ 0 hlen]
    simp only [massSourcesSpec, List.getElem_map, List.getElem_range]
    rw [ChemicalMixture.M, Finset.mul_sum]
    exact Finset.sum_congr rfl (fun r _ => by ring)
  rw [Finset.sum_congr rfl hpt, Finset.sum_comm]
  apply Finset.sum_eq_zero
  intro r hr
  rw [← Finset.mul_sum]
  have hmem : k.reaction_set.reaction r ∈ k.reaction_set.reactions := by
    rw [Finset.mem_range, ReactionSet.n_reactions] at hr
    rw [ReactionSet.reaction, List.getD_eq_getElem _ _ hr]
    exact List.getElem_mem hr
  obtain ⟨hidr, hidp⟩ := hwf _ hmem
  have hzero : ∑ s ∈ Finset.range k.reaction_set.mixture.n_species,
      k.reaction_set.mixture.molarMasses.getD s 0 *
        netCoeff s (k.reaction_set.reaction r) = 0 := by
    simp only [netCoeff, mul_sub, Finset.sum_sub_distrib,
      ChemicalMixture.n_species] at *
    rw [sum_M_coeffSum _ _ hidp, sum_M_coeffSum _ _ hidr,
      hbal _ hmem, sub_self]
  rw [hzero, mul_zero]

theorem mass_conservation_witness :
    (Kinetics.construct exBal).reaction_set.wf ∧
    (∀ rxn ∈ (Kinetics.construct exBal).reaction_set.reactions,
      entriesMass (Kinetics.construct exBal).reaction_set.mixture.molarMasses
          rxn.reactants
        = entriesMass
            (Kinetics.construct exBal).reaction_set.mixture.molarMasses
            rxn.products) ∧
    ((Kinetics.construct exBal).compute_mass_sources 1 1 1 [1, 0] [1, 1]
        [0, 0] [0, 0] = some (⟨exBal, exRatesBal⟩, exOutBal)) ∧
    exOutBal.sum = 0 := by
  have hwf : (Kinetics.construct exBal).reaction_set.wf := by decide
  have hbal : ∀ rxn ∈ (Kinetics.construct exBal).reaction_set.reactions,
      entriesMass (Kinetics.construct exBal).reaction_set.mixture.molarMasses
          rxn.reactants
        = entriesMass
            (Kinetics.construct exBal).reaction_set.mixture.molarMasses
            rxn.products := by
    intro rxn hmem
    have hmem2 : rxn ∈ [(⟨[(0, 1)], [(1, 1)]⟩ : Reaction)] := hmem
    rw [List.mem_singleton] at hmem2
    subst hmem2
    rfl
  have hcall : (Kinetics.construct exBal).compute_mass_sources 1 1 1 [1, 0]
      [1, 1] [0, 0] [0, 0] = some (⟨exBal, exRatesBal⟩, exOutBal) :=
    compute_mass_sources_eq_some _ _ _ _ _ _ _ _ (by decide)
  exact ⟨hwf, hbal, hcall,
    mass_conservation (Kinetics.construct exBal) 1 1 1 [1, 0] [1, 1] [0, 0]
      [0, 0] ⟨exBal, exRatesBal⟩ exOutBal hwf hbal hcall⟩

/-- The spec's rate-negation transformation: the same reaction set and
mixture, with the aggregator's output net-rate vector replaced by its
entrywise negation. -/
def ReactionSet.negRates (rs : ReactionSet) : ReactionSet where
  mixture := rs.mixture
  reactions := rs.reactions
  rateFn := fun T rho R_mix y c hrt =>
    (rs.rateFn T rho R_mix y c hrt).map (fun x => -x)
  rateFn_len := fun T rho R_mix y c hrt => by
    rw [List.length_map]; exact rs.rateFn_len T rho R_mix y c hrt

lemma massSourcesSpec_negRates (rs : ReactionSet) (rates : List ℚ)
    (hlen : rates.length = rs.reactions.length) :
    massSourcesSpec rs.negRates (rates.map (fun x => -x))
      = (massSourcesSpec rs rates).map (fun x => -x) := by
  simp only [massSourcesSpec, ReactionSet.negRates, ReactionSet.n_reactions,
    ReactionSet.reaction, List.map_map]
  apply List.map_congr_left
  intro s _
  simp only [Function.comp_apply]
  have hterm : ∀ r ∈ Finset.range rs.reactions.length,
      (rates.map (fun x => -x)).getD r 0
          * netCoeff s (rs.reactions.getD r default)
        = -(rates.getD r 0 * netCoeff s (rs.reactions.getD r default)) := by
    intro r hr
    rw [Finset.mem_range, ← hlen] at hr
    rw [List.getD_eq_getElem _ 0 (by rw [List.length_map]; exact hr),
      List.getElem_map, ← List.getD_eq_getElem _ 0 hr]
    ring
  rw [Finset.sum_congr rfl hterm, Finset.sum_neg_distrib]
  ring

/-- C5: replacing the aggregator's output net-rate vector by its entrywise
negation negates every entry of the mass-source vector exactly. -/
theorem rate_reversal_negates_sources (k : Kinetics) (T rho R_mix : ℚ)
    (y c hrt ms1 ms2 : List ℚ) (k1 k2 : Kinetics) (out1 out2 : List ℚ)
    (hc1 : k.compute_mass_sources T rho R_mix y c hrt ms1
      = some (k1, out1))
    (hc2 : (Kinetics.mk k.reaction_set.negRates
        k.net_reaction_rates).compute_mass_sources T rho R_mix y c hrt ms2
      = some (k2, out2)) :
    out2 = out1.map (fun x => -x) := by
  obtain ⟨_, _, hout1⟩ := compute_some_inv _ _ _ _ _ _ _ _ _ _ hc1
  obtain ⟨_, _, hout2⟩ := compute_some_inv _ _ _ _ _ _ _ _ _ _ hc2
  rw [hout1, hout2]
  exact massSourcesSpec_negRates _ _
    (k.reaction_set.rateFn_len T rho R_mix y c hrt)

/-- The rate vector of the negated-aggregator A -> B call. -/
def exRatesNegAB : List ℚ :=
  (Kinetics.construct exAB).reaction_set.negRates.rateFn 1 1 1 [1, 0] [1, 1]
    [0, 0]

/-- The mass-source vector the negated-aggregator A -> B call produces. -/
def exOutNegAB : List ℚ :=
  scaleByMolarMass
    (Kinetics.construct exAB).reaction_set.negRates.mixture.molarMasses
    (accumulateAll (Kinetics.construct exAB).reaction_set.negRates.reactions
      exRatesNegAB (List.replicate 2 0))

theorem rate_reversal_negates_sources_witness :
    ((Kinetics.construct exAB).compute_mass_sources 1 1 1 [1, 0] [1, 1]
        [0, 0] [0, 0] = some (⟨exAB, exRatesAB⟩, exOutAB)) ∧
    ((Kinetics.mk (Kinetics.construct exAB).reaction_set.negRates
          (Kinetics.construct exAB).net_reaction_rates).compute_mass_sources
        1 1 1 [1, 0] [1, 1] [0, 0] [0, 0]
      = some (⟨(Kinetics.construct exAB).reaction_set.negRates,
          exRatesNegAB⟩, exOutNegAB)) ∧
    exOutNegAB = exOutAB.map (fun x => -x) := by
  have hc1 : (Kinetics.construct exAB).compute_mass_sources 1 1 1 [1, 0]
      [1, 1] [0, 0] [0, 0] = some (⟨exAB, exRatesAB⟩, exOutAB) :=
    compute_mass_sources_eq_some _ _ _ _ _ _ _ _ (by decide)
  have hc2 : (Kinetics.mk (Kinetics.construct exAB).reaction_set.negRates
        (Kinetics.construct exAB).net_reaction_rates).compute_mass_sources
      1 1 1 [1, 0] [1, 1] [0, 0] [0, 0]
      = some (⟨(Kinetics.construct exAB).reaction_set.negRates,
          exRatesNegAB⟩, exOutNegAB) :=
    compute_mass_sources_eq_some _ _ _ _ _ _ _ _ (by decide)
  exact ⟨hc1, hc2,
    rate_reversal_negates_sources (Kinetics.construct exAB) 1 1 1 [1, 0]
      [1, 1] [0, 0] [0, 0] [0, 0] ⟨exAB, exRatesAB⟩
      ⟨(Kinetics.construct exAB).reaction_set.negRates, exRatesNegAB⟩
      exOutAB exOutNegAB hc1 hc2⟩

lemma compute_self (k' : Kinetics) (T rho R_mix : ℚ)
    (y c hrt out : List ℚ)
    (hpre2 : k'.pre T rho R_mix y c hrt out)
    (hscr : k'.net_reaction_rates
      = k'.reaction_set.rateFn T rho R_mix y c hrt)
    (hout : out = massSourcesSpec k'.reaction_set
      (k'.reaction_set.rateFn T rho R_mix y c hrt)) :
    k'.compute_mass_sources T rho R_mix y c hrt out = some (k', out) := by
  rw [compute_mass_sources_eq_some _ _ _ _ _ _ _ _ hpre2]
  have hlen2 := k'.reaction_set.rateFn_len T rho R_mix y c hrt
  have hn : out.length = k'.n_species := hpre2.2.2.2.2.2.2.1
  rw [scaled_accum_eq_spec _ _ _ hn hlen2, ← hout, ← hscr]

/-- C6: a second call with identical inputs, handing back the buffer the
first call overwrote, produces the identical result again — output is
overwritten (reset to zero first), never accumulated. -/
theorem overwrite_not_accumulate (k k1 : Kinetics) (T rho R_mix : ℚ)
    (y c hrt ms out : List ℚ)
    (hcall : k.compute_mass_sources T rho R_mix y c hrt ms
      = some (k1, out)) :
    k1.compute_mass_sources T rho R_mix y c hrt out = some (k1, out) := by
  obtain ⟨hpre, hk1, hout⟩ := compute_some_inv _ _ _ _ _ _ _ _ _ _ hcall
  obtain ⟨hT, hrho, hR, hy, hcden, hh, hms, _⟩ := hpre
  have hout_len : out.length = k.n_species := by
    rw [hout, massSourcesSpec_length]
    rfl
  have hscr : k1.net_reaction_rates
      = k1.reaction_set.rateFn T rho R_mix y c hrt := by
    rw [hk1]
  have hpre2 : k1.pre T rho R_mix y c hrt out := by
    rw [hk1]
    exact ⟨hT, hrho, hR, hy, hcden, hh, hout_len,
      k.reaction_set.rateFn_len T rho R_mix y c hrt⟩
  have hout2 : out = massSourcesSpec k1.reaction_set
      (k1.reaction_set.rateFn T rho R_mix y c hrt) := by
    rw [hk1]
    exact hout
  exact compute_self k1 T rho R_mix y c hrt out hpre2 hscr hout2

theorem overwrite_not_accumulate_witness :
    ((Kinetics.construct exAB).compute_mass_sources 1 1 1 [1, 0] [1, 1]
        [0, 0] [0, 0] = some (⟨exAB, exRatesAB⟩, exOutAB)) ∧
    (Kinetics.mk exAB exRatesAB).compute_mass_sources 1 1 1 [1, 0] [1, 1]
        [0, 0] exOutAB = some (⟨exAB, exRatesAB⟩, exOutAB) := by
  have hcall : (Kinetics.construct exAB).compute_mass_sources 1 1 1 [1, 0]
      [1, 1] [0, 0] [0, 0] = some (⟨exAB, exRatesAB⟩, exOutAB) :=
    compute_mass_sources_eq_some _ _ _ _ _ _ _ _ (by decide)
  exact ⟨hcall,
    overwrite_not_accumulate (Kinetics.construct exAB) ⟨exAB, exRatesAB⟩
      1 1 1 [1, 0] [1, 1] [0, 0] [0, 0] exOutAB hcall⟩

/-- C7: a call violating any precondition — non-positive temperature,
density or mixture gas constant, or a per-species vector whose length is
not `n_species` — takes the assertion path and yields no result. -/
theorem precondition_violation_rejected (k : Kinetics) (T rho R_mix : ℚ)
    (y c hrt ms : List ℚ)
    (hviol : T ≤ 0 ∨ rho ≤ 0 ∨ R_mix ≤ 0
      ∨ y.length ≠ k.n_species ∨ c.length ≠ k.n_species
      ∨ hrt.length ≠ k.n_species ∨ ms.length ≠ k.n_species) :
    k.compute_mass_sources T rho R_mix y c hrt ms = none := by
  apply compute_mass_sources_eq_none
  intro hpre
  obtain ⟨hT, hrho, hR, hy, hcden, hh, hms, _⟩ := hpre
  rcases hviol with hv | hv | hv | hv | hv | hv | hv
  · exact absurd hT (not_lt.mpr hv)
  · exact absurd hrho (not_lt.mpr hv)
  · exact absurd hR (not_lt.mpr hv)
  · exact hv hy
  · exact hv hcden
  · exact hv hh
  · exact hv hms

theorem precondition_violation_rejected_witness :
    ((0 : ℚ) ≤ 0) ∧
    (Kinetics.construct exAB).compute_mass_sources 0 1 1 [1, 0] [1, 1]
        [0, 0] [0, 0] = none :=
  ⟨le_refl 0,
    precondition_violation_rejected (Kinetics.construct exAB) 0 1 1 [1, 0]
      [1, 1] [0, 0] [0, 0] (Or.inl (le_refl 0))⟩

/-- C8: construction allocates the scratch net-rate buffer with length
exactly `n_reactions`, zero-initialized, and binds the collaborators; the
scratch buffer has length `n_reactions` before and after every successful
call, and the accessors return the counts of the bound collaborators. -/
theorem scratch_buffer_invariant (rs : ReactionSet) (k k' : Kinetics)
    (T rho R_mix : ℚ) (y c hrt ms out : List ℚ)
    (hcall : k.compute_mass_sources T rho R_mix y c hrt ms
      = some (k', out)) :
    (Kinetics.construct rs).net_reaction_rates
        = List.replicate rs.n_reactions 0 ∧
    (Kinetics.construct rs).net_reaction_rates.length = rs.n_reactions ∧
    (Kinetics.construct rs).reaction_set = rs ∧
    (Kinetics.construct rs).n_species = rs.mixture.n_species ∧
    (Kinetics.construct rs).n_reactions = rs.n_reactions ∧
    k.net_reaction_rates.length = k.n_reactions ∧
    k'.reaction_set = k.reaction_set ∧
    k'.net_reaction_rates.length = k'.n_reactions ∧
    k'.n_species = k.n_species ∧
    k'.n_reactions = k.n_reactions := by
  obtain ⟨hpre, hk', _⟩ := compute_some_inv _ _ _ _ _ _ _ _ _ _ hcall
  refine ⟨rfl, List.length_replicate _ _, rfl, rfl, rfl,
    hpre.2.2.2.2.2.2.2, ?_, ?_, ?_, ?_⟩
  · rw [hk']
  · rw [hk']
    exact k.reaction_set.rateFn_len T rho R_mix y c hrt
  · rw [hk']
    rfl
  · rw [hk']
    rfl

theorem scratch_buffer_invariant_witness :
    ((Kinetics.construct exAB).compute_mass_sources 1 1 1 [1, 0] [1, 1]
        [0, 0] [0, 0] = some (⟨exAB, exRatesAB⟩, exOutAB)) ∧
    ((Kinetics.construct exAB).net_reaction_rates
        = List.replicate exAB.n_reactions 0 ∧
      (Kinetics.construct exAB).net_reaction_rates.length
        = exAB.n_reactions ∧
      (Kinetics.construct exAB).reaction_set = exAB ∧
      (Kinetics.construct exAB).n_species = exAB.mixture.n_species ∧
      (Kinetics.construct exAB).n_reactions = exAB.n_reactions ∧
      (Kinetics.construct exAB).net_reaction_rates.length
        = (Kinetics.construct exAB).n_reactions ∧
      (Kinetics.mk exAB exRatesAB).reaction_set
        = (Kinetics.construct exAB).reaction_set ∧
      (Kinetics.mk exAB exRatesAB).net_reaction_rates.length
        = (Kinetics.mk exAB exRatesAB).n_reactions ∧
      (Kinetics.mk exAB exRatesAB).n_species
        = (Kinetics.construct exAB).n_species ∧
      (Kinetics.mk exAB exRatesAB).n_reactions
        = (Kinetics.construct exAB).n_reactions) := by
  have hcall : (Kinetics.construct exAB).compute_mass_sources 1 1 1 [1, 0]
      [1, 1] [0, 0] [0, 0] = some (⟨exAB, exRatesAB⟩, exOutAB) :=
    compute_mass_sources_eq_some _ _ _ _ _ _ _ _ (by decide)
  exact ⟨hcall,
    scratch_buffer_invariant exAB (Kinetics.construct exAB)
      ⟨exAB, exRatesAB⟩ 1 1 1 [1, 0] [1, 1] [0, 0] [0, 0] exOutAB hcall⟩

/-- The memory observable after a call: the contents of the internal
`_net_reaction_rates` buffer and of the caller's `mass_sources` buffer once
`compute_mass_sources` returns, or aborts on a failed assertion (an aborted
call leaves both buffers as they were). -/
def Kinetics.observedAfter (k : Kinetics) (T rho R_mix : ℚ)
    (y c hrt ms : List ℚ) : List ℚ × List ℚ :=
  match k.compute_mass_sources T rho R_mix y c hrt ms with
  | none => (k.net_reaction_rates, ms)
  | some (k', out) => (k'.net_reaction_rates, out)

/-- C9: every precondition is checked before any mutation, so a call that
fails a precondition leaves both the caller's `mass_sources` buffer and the
internal scratch buffer exactly as they were. -/
theorem failed_call_leaves_state_unchanged (k : Kinetics)
    (T rho R_mix : ℚ) (y c hrt ms : List ℚ)
    (hnpre : ¬ k.pre T rho R_mix y c hrt ms) :
    k.observedAfter T rho R_mix y c hrt ms
      = (k.net_reaction_rates, ms) := by
  rw [Kinetics.observedAfter,
    compute_mass_sources_eq_none _ _ _ _ _ _ _ _ hnpre]

theorem failed_call_leaves_state_unchanged_witness :
    ¬ (Kinetics.construct exAB).pre 0 1 1 [1, 0] [1, 1] [0, 0] [0, 0] ∧
    (Kinetics.construct exAB).observedAfter 0 1 1 [1, 0] [1, 1] [0, 0]
        [0, 0]
      = ((Kinetics.construct exAB).net_reaction_rates, [0, 0]) :=
  ⟨by decide,
    failed_call_leaves_state_unchanged (Kinetics.construct exAB) 0 1 1
      [1, 0] [1, 1] [0, 0] [0, 0] (by decide)⟩

/-- C10: the output depends on the thermodynamic inputs only through the
net-rate vector the aggregator writes — two valid calls on instances bound
to the same collaborators whose aggregator writes the same rates produce
identical mass sources, however the thermodynamic inputs differ. -/
theorem sources_depend_only_on_rates (k1 k2 : Kinetics)
    (hrs : k1.reaction_set = k2.reaction_set)
    (T1 rho1 R1 : ℚ) (y1 c1 hrt1 ms1 : List ℚ)
    (T2 rho2 R2 : ℚ) (y2 c2 hrt2 ms2 : List ℚ)
    (k1' k2' : Kinetics) (out1 out2 : List ℚ)
    (hc1 : k1.compute_mass_sources T1 rho1 R1 y1 c1 hrt1 ms1
      = some (k1', out1))
    (hc2 : k2.compute_mass_sources T2 rho2 R2 y2 c2 hrt2 ms2
      = some (k2', out2))
    (hrate : k1.reaction_set.rateFn T1 rho1 R1 y1 c1 hrt1
      = k2.reaction_set.rateFn T2 rho2 R2 y2 c2 hrt2) :
    out1 = out2 := by
  obtain ⟨_, _, hout1⟩ := compute_some_inv _ _ _ _ _ _ _ _ _ _ hc1
  obtain ⟨_, _, hout2⟩ := compute_some_inv _ _ _ _ _ _ _ _ _ _ hc2
  rw [hout1, hout2, hrate, hrs]

/-- The rate vector of the second, thermodynamically different call. -/
def exRatesAB2 : List ℚ := exAB.rateFn 7 2 3 [0, 1] [2, 2] [5, 5]

/-- The mass-source vector of the second, thermodynamically different
call. -/
def exOutAB2 : List ℚ :=
  scaleByMolarMass exAB.mixture.molarMasses
    (accumulateAll exAB.reactions exRatesAB2 (List.replicate 2 0))

theorem sources_depend_only_on_rates_witness :
    ((Kinetics.construct exAB).compute_mass_sources 1 1 1 [1, 0] [1, 1]
        [0, 0] [0, 0] = some (⟨exAB, exRatesAB⟩, exOutAB)) ∧
    ((Kinetics.construct exAB).compute_mass_sources 7 2 3 [0, 1] [2, 2]
        [5, 5] [9, 9] = some (⟨exAB, exRatesAB2⟩, exOutAB2)) ∧
    exOutAB = exOutAB2 := by
  have hc1 : (Kinetics.construct exAB).compute_mass_sources 1 1 1 [1, 0]
      [1, 1] [0, 0] [0, 0] = some (⟨exAB, exRatesAB⟩, exOutAB) :=
    compute_mass_sources_eq_some _ _ _ _ _ _ _ _ (by decide)
  have hc2 : (Kinetics.construct exAB).compute_mass_sources 7 2 3 [0, 1]
      [2, 2] [5, 5] [9, 9] = some (⟨exAB, exRatesAB2⟩, exOutAB2) :=
    compute_mass_sources_eq_some _ _ _ _ _ _ _ _ (by decide)
  exact ⟨hc1, hc2,
    sources_depend_only_on_rates (Kinetics.construct exAB)
      (Kinetics.construct exAB) rfl 1 1 1 [1, 0] [1, 1] [0, 0] [0, 0]
      7 2 3 [0, 1] [2, 2] [5, 5] [9, 9] ⟨exAB, exRatesAB⟩
      ⟨exAB, exRatesAB2⟩ exOutAB exOutAB2 hc1 hc2 rfl⟩

end Antioch
